import Mathlib

/-!
Verification development for a WSDL-to-GraphQL schema generator.

The generator (class StepZenSOAPGenerator in main.py) walks a parsed WSDL
document, maps XSD types to GraphQL type tokens, renders SOAP envelope
templates, assembles a schema document plus an index document, and
orchestrates an external deploy tool around a move-out/move-back file
relocation.  Every definition below is a direct shallow embedding of the
corresponding Python code; definitions written from the specification text
for refinement comparison are named and documented as such.
-/

set_option autoImplicit false
set_option maxRecDepth 8192

namespace StepZen

/-! ## String helpers (embedding Python string primitives) -/

/-- Membership test of a string in a list, embedding the Python operator
in for sets, dict key views and lists of strings. -/
def memStr (k : String) : List String → Bool
  | [] => false
  | x :: xs => x == k || memStr k xs

/-- Counts occurrences of a string in a list. -/
def countStr (n : String) : List String → Nat
  | [] => 0
  | x :: xs => (if x == n then 1 else 0) + countStr n xs

/-- Tests whether the pattern is a prefix of the character list. -/
def listHasPre (pat s : List Char) : Bool :=
  match pat, s with
  | [], _ => true
  | _ :: _, [] => false
  | p :: ps, c :: cs => p == c && listHasPre ps cs

/-- Tests whether the pattern occurs as a contiguous substring. -/
def listHasSub (pat : List Char) : List Char → Bool
  | [] => pat.isEmpty
  | c :: cs => listHasPre pat (c :: cs) || listHasSub pat cs

/-- Embedding of the Python substring operator: pat in s. -/
def strHasSub (s pat : String) : Bool := listHasSub pat.data s.data

/-- Lowercasing of one character, embedding Python str.lower on the
ASCII range in which XSD builtin type names live. -/
def lowChr (c : Char) : Char :=
  if 65 ≤ c.toNat && c.toNat ≤ 90 then Char.ofNat (c.toNat + 32) else c

/-- Lowercasing of a string, embedding Python str.lower. -/
def strLower (s : String) : String := ⟨s.data.map lowChr⟩

/-- The last character of a string, if any. -/
def lastChr (s : String) : Option Char := s.data.reverse.head?

/-- Embedding of the Python call s.endswith applied to the single
character string holding an exclamation mark. -/
def endsBang (s : String) : Bool :=
  match lastChr s with
  | some c => c == '!'
  | none => false

/-- Embedding of the Python call s.rstrip applied to the single character
string holding an exclamation mark: removes every trailing exclamation
mark. -/
def rstripBang (s : String) : String :=
  ⟨(s.data.reverse.dropWhile (fun c => c == '!')).reverse⟩

/-- Decimal digit character for a value below ten. -/
def digitChr (n : Nat) : Char :=
  match n with
  | 0 => '0' | 1 => '1' | 2 => '2' | 3 => '3' | 4 => '4'
  | 5 => '5' | 6 => '6' | 7 => '7' | 8 => '8' | _ => '9'

/-- Fuel-driven decimal rendering of a natural number, little helper for
the embedding of the Python f-string interpolation of an int counter.
The fuel argument bounds the number of digits; natRepr always supplies
enough fuel. -/
def natReprAux : Nat → Nat → List Char
  | 0, _ => []
  | fuel + 1, n =>
    if n < 10 then [digitChr n]
    else natReprAux fuel (n / 10) ++ [digitChr (n % 10)]

/-- Decimal rendering of a natural number, embedding Python str(counter). -/
def natRepr (n : Nat) : String := ⟨natReprAux (n + 1) n⟩

/-! ## The complex type registry

The Python attribute complex_type_registry is a dict from generated type
name to GraphQL type declaration string.  Python dicts preserve insertion
order and updating an existing key keeps its position, which the
association list embedding below reproduces. -/

/-- The complex type registry: an insertion-ordered association list. -/
abbrev Registry := List (String × String)

/-- The list of keys of a registry, embedding dict key membership. -/
def keysOf (reg : Registry) : List String := reg.map Prod.fst

/-- Embedding of a Python dict assignment reg[k] = v: replace in place
when the key is present, append otherwise. -/
def regInsert (reg : Registry) (k v : String) : Registry :=
  if memStr k (keysOf reg) then
    reg.map (fun p => if p.1 == k then (k, v) else p)
  else reg ++ [(k, v)]

/-- Lookup of a key in a registry. -/
def lookupReg : Registry → String → Option String
  | [], _ => none
  | (k, v) :: rest, key => if k == key then some v else lookupReg rest key

/-! ## XSD type nodes

A Zeep XSD node as the mapper observes it: a builtin type with a name, a
complex type with an ordered list of named children, or any other
category.  The Python code reads min_occurs and max_occurs off every node
with getattr defaulting to 1, so every node carries both; a max
occurrence of none embeds the Python value None, meaning unbounded. -/

mutual
inductive XsdType : Type where
  | builtin : String → Nat → Option Nat → XsdType
  | complex : XsdElems → Nat → Option Nat → XsdType
  | other : Nat → Option Nat → XsdType

inductive XsdElems : Type where
  | nil : XsdElems
  | cons : String → XsdType → XsdElems → XsdElems
end

/-- The min_occurs attribute of a node (getattr default 1 folded in). -/
def XsdType.minOcc : XsdType → Nat
  | .builtin _ m _ => m
  | .complex _ m _ => m
  | .other m _ => m

/-- The max_occurs attribute of a node; none embeds Python None. -/
def XsdType.maxOcc : XsdType → Option Nat
  | .builtin _ _ x => x
  | .complex _ _ x => x
  | .other _ x => x

/-- Embedding of the Python test max_occurs is None or max_occurs > 1. -/
def maxMany : Option Nat → Bool
  | none => true
  | some n => decide (1 < n)

/-- Whether a node is a complex type. -/
def XsdType.isCplx : XsdType → Bool
  | .complex _ _ _ => true
  | _ => false

/-! ## Unique name selection

Embedding of the while loop in the complex branch of
StepZenSOAPGenerator map xsd to graphql:

  type_name = type_name_hint; counter = 1
  while type_name in self.complex_type_registry:
      type_name = hint followed by str(counter); counter += 1

The loop terminates because the candidate names are pairwise distinct
while the registry is finite; the fuel keysOf length plus one therefore
always suffices, and the fuel-exhausted branch (which returns the current
candidate unchecked) is unreachable. -/

def chooseNameAux (hint : String) (keys : List String) : Nat → Nat → String
  | 0, counter => hint ++ natRepr counter
  | fuel + 1, counter =>
    let cand := hint ++ natRepr counter
    if memStr cand keys then chooseNameAux hint keys fuel (counter + 1)
    else cand

/-- The unique registry key chosen for a name hint. -/
def chooseName (hint : String) (keys : List String) : String :=
  if memStr hint keys then chooseNameAux hint keys (keys.length + 1) 1
  else hint

/-! ## The XSD to GraphQL type mapper

Direct embedding of StepZenSOAPGenerator map xsd to graphql.  The
registry is threaded explicitly in place of the mutable attribute.  The
builtin branch embeds the initialisation of gql_type to the String token
followed by the if/elif chain; the complex branch chooses a fresh name,
maps the children (reading min_occurs and max_occurs off each child node,
stripping the non-null marker for optional children and wrapping
many-valued children in a non-null list), registers the composed
declaration and returns the registered name; every other category yields
the String token. -/

mutual
def mapXsd : XsdType → String → Registry → String × Registry
  | XsdType.builtin name _ _, _, reg =>
    let xsdName := strLower name
    let gqlType :=
      if strHasSub xsdName "int" then "Int!"
      else if strHasSub xsdName "float" || strHasSub xsdName "double"
              || strHasSub xsdName "decimal" then "Float!"
      else if strHasSub xsdName "bool" then "Boolean!"
      else "String!"
    (gqlType, reg)
  | XsdType.complex elems _ _, hint, reg =>
    let typeName := chooseName hint (keysOf reg)
    let (fields, reg1) := mapFields elems reg
    (typeName,
      regInsert reg1 typeName
        ("type " ++ typeName ++ " \x7b\n  "
          ++ String.intercalate "\n  " fields ++ "\n\x7d"))
  | XsdType.other _ _, _, reg => ("String!", reg)

def mapFields : XsdElems → Registry → List String × Registry
  | XsdElems.nil, reg => ([], reg)
  | XsdElems.cons name subType rest, reg =>
    let (s0, reg1) := mapXsd subType name reg
    let s1 := if subType.minOcc == 0 && endsBang s0 then rstripBang s0 else s0
    let s2 := if maxMany subType.maxOcc then "[" ++ rstripBang s1 ++ "]!" else s1
    let (fields, reg2) := mapFields rest reg1
    ((name ++ ": " ++ s2) :: fields, reg2)
end

/-- The per-element type computation performed inside the field loop of
the complex branch: map the child, strip the non-null marker when the
minimum occurrence is zero, wrap in a non-null list when the maximum
occurrence is unbounded or above one.  mapFields performs exactly this
computation for each child, see mapFields cons step. -/
def elemFieldT (subType : XsdType) (name : String) (reg : Registry) :
    String × Registry :=
  let (s0, reg1) := mapXsd subType name reg
  let s1 := if subType.minOcc == 0 && endsBang s0 then rstripBang s0 else s0
  let s2 := if maxMany subType.maxOcc then "[" ++ rstripBang s1 ++ "]!" else s1
  (s2, reg1)

/-- The scalar rule as the specification words it, with the priority
order the code imposes made explicit: the int clause is examined first,
then the float family, then bool, else the String token.  Stated
separately from mapXsd for refinement comparison. -/
def specScalarRule (name : String) : String :=
  let ln := strLower name
  if strHasSub ln "int" then "Int!"
  else if strHasSub ln "float" || strHasSub ln "double"
          || strHasSub ln "decimal" then "Float!"
  else if strHasSub ln "bool" then "Boolean!"
  else "String!"

/-- Whether no child element of the list has a complex type, so that
mapping each child leaves the registry untouched. -/
def noCplxElems : XsdElems → Bool
  | XsdElems.nil => true
  | XsdElems.cons _ t rest => !t.isCplx && noCplxElems rest

/-! ## The SOAP envelope templater

Direct embedding of the static method build postbody. -/

/-- The opening tag of the operation element: wrapped in the target
namespace exactly when one is provided (Python truthiness of the
namespace string). -/
def opOpenOf (action soapNs : String) : String :=
  if soapNs != "" then "<" ++ action ++ " xmlns=\"" ++ soapNs ++ "\">"
  else "<" ++ action ++ ">"

/-- The SOAP envelope template for an operation: version selects the
namespace prefix and envelope namespace, each argument becomes an XML
element holding a named-parameter placeholder token. -/
def buildPostbody (action soapNs : String) (args : List String)
    (soapVersion : String) : String :=
  let envPre := if soapVersion == "soap12" then "soap12" else "soap"
  let envNs := if soapVersion == "soap12" then "http://www.w3.org/2003/05/soap-envelope"
               else "http://schemas.xmlsoap.org/soap/envelope/"
  let opOpen := opOpenOf action soapNs
  let argLines := args.map (fun n =>
    "  <" ++ n ++ ">\x7b\x7b .Get \"" ++ n ++ "\" \x7d\x7d</" ++ n ++ ">")
  let argBlock := String.intercalate "\n" argLines
  "<?xml version=\"1.0\" encoding=\"utf-8\"?>\n<" ++ envPre ++ ":Envelope xmlns:"
    ++ envPre ++ "=\"" ++ envNs ++ "\">\n  <" ++ envPre ++ ":Body>\n    " ++ opOpen
    ++ "\n" ++ argBlock ++ "\n    </" ++ action ++ ">\n  </" ++ envPre
    ++ ":Body>\n</" ++ envPre ++ ":Envelope>"

/-! ## The field generator

Direct embedding of generate field, including the textwrap indent of the
envelope body. -/

/-- Whitespace test matching Python str.strip defaults. -/
def isWsChar (c : Char) : Bool :=
  c == ' ' || c == '\t' || c == '\n' || c == '\r' || c == '\x0b' || c == '\x0c'

/-- Embedding of textwrap indent with its default predicate: every line
holding a non-whitespace character receives the given indentation. -/
def indentStr (text pre : String) : String :=
  String.intercalate "\n"
    ((text.splitOn "\n").map (fun line =>
      if line.data.all isWsChar then line else pre ++ line))

/-- One GraphQL field declaration with its REST-call directive block. -/
def generateField (opName tns : String) (argNames : List String)
    (gqlArgsSig : List String) (endpoint : String) : String :=
  let postbodyXml := buildPostbody opName tns argNames "soap12"
  let argsSignature := String.intercalate ", " gqlArgsSig
  let fieldSignature :=
    if argsSignature != "" then opName ++ "(" ++ argsSignature ++ ")" else opName
  "  " ++ fieldSignature ++ " : JSON\n    @rest(\n      endpoint: \"" ++ endpoint
    ++ "\"\n      method: POST\n      headers: [\n        \x7bname: \"Content-Type\", value: \"text/xml; charset=utf-8\"\x7d\n      ]\n      postbody: \"\"\"\n"
    ++ indentStr postbodyXml "        "
    ++ "\n      \"\"\"\n      transforms: [\x7bpathpattern: \"[]\", editor: \"xml2json\"\x7d]\n      resultroot: \"Envelope\"\n    )"

/-! ## The schema assembler

Embedding of generate schema.  The parsed WSDL document is the read-only
tree the SOAP library exposes: services holding ports, each port bound to
an optional address and holding operations, each operation with a name
and, when the input body chain is truthy, the ordered child elements of
its input type. -/

structure Operation where
  name : String
  input : Option XsdElems

structure Port where
  address : Option String
  operations : List Operation

structure Service where
  ports : List Port

structure WsdlDoc where
  services : List Service

/-- Embedding of the Python expression wsdl_url.split on a question mark
taking the first piece. -/
def stripQuery (s : String) : String := ⟨s.data.takeWhile (fun c => c != '?')⟩

/-- Endpoint resolution: the bound address when truthy, else the WSDL
URL with any query string stripped. -/
def endpointOf (port : Port) (wsdlUrl : String) : String :=
  match port.address with
  | some a => if a == "" then stripQuery wsdlUrl else a
  | none => stripQuery wsdlUrl

/-- Mutable state of one generation pass: the seen operation names, the
emitted fields tagged with their operation name, and the complex type
registry. -/
structure GenSt where
  seen : List String
  pairs : List (String × String)
  reg : Registry

/-- Argument mapping loop of generate schema: collects argument names
and typed signatures while threading the registry. -/
def mapArgs : XsdElems → Registry → List String × List String × Registry
  | XsdElems.nil, reg => ([], [], reg)
  | XsdElems.cons n t rest, reg =>
    let (g, reg1) := mapXsd t n reg
    let (ns, sigs, reg2) := mapArgs rest reg1
    (n :: ns, (n ++ ": " ++ g) :: sigs, reg2)

/-- One enumerated operation with its resolved endpoint. -/
structure OpCtx where
  name : String
  input : Option XsdElems
  endpoint : String

/-- Emission of one operation: map its input elements to argument names
and signatures, generate the field, record the name as seen. -/
def emitCtx (tns : String) (st : GenSt) (c : OpCtx) : GenSt :=
  let (argNames, sigs, reg1) :=
    match c.input with
    | some elems => mapArgs elems st.reg
    | none => ([], [], st.reg)
  { seen := c.name :: st.seen,
    pairs := st.pairs ++ [(c.name, generateField c.name tns argNames sigs c.endpoint)],
    reg := reg1 }

/-- The operation step of the walk: skip names already seen, emit
otherwise. -/
def procCtx (tns : String) (st : GenSt) (c : OpCtx) : GenSt :=
  if memStr c.name st.seen then st else emitCtx tns st c

/-- The operation loop step as the nested walk performs it. -/
def procOp (tns endpoint : String) (st : GenSt) (op : Operation) : GenSt :=
  procCtx tns st ⟨op.name, op.input, endpoint⟩

/-- The port loop: resolve the endpoint, then walk the operations of the
binding of the port. -/
def procPort (tns url : String) (st : GenSt) (port : Port) : GenSt :=
  port.operations.foldl (procOp tns (endpointOf port url)) st

/-- The service loop of generate schema. -/
def procDoc (tns url : String) (doc : WsdlDoc) (st : GenSt) : GenSt :=
  doc.services.foldl (fun st1 svc => svc.ports.foldl (procPort tns url) st1) st

/-- The flattened enumeration of the nested service, port and operation
loops, each operation paired with the endpoint of its port. -/
def enumOps (url : String) (doc : WsdlDoc) : List OpCtx :=
  (doc.services.map (fun s =>
    (s.ports.map (fun p =>
      p.operations.map (fun o => OpCtx.mk o.name o.input (endpointOf p url)))).flatten)).flatten

/-- First-occurrence deduplication by operation name against an initial
set of seen names; the specification-side description of the walk. -/
def dedupSeen (seen : List String) : List OpCtx → List OpCtx
  | [] => []
  | c :: rest =>
    if memStr c.name seen then dedupSeen seen rest
    else c :: dedupSeen (c.name :: seen) rest

/-- The assembled schema document: registered complex type declarations
followed by the root Query type holding every emitted field. -/
def schemaBodyOf (tns url : String) (doc : WsdlDoc) : String :=
  let res := procDoc tns url doc ⟨[], [], []⟩
  let typesBody := String.intercalate "\n\n" (res.reg.map Prod.snd)
  typesBody ++ "\n\n" ++ "type Query \x7b\n"
    ++ String.intercalate "\n\n" (res.pairs.map Prod.snd) ++ "\n\x7d\n"

/-- The fixed index document. -/
def indexBody : String :=
  "schema @sdl(files: [\"schema.graphql\"]) \x7b\n  query: Query\n\x7d\n"

/-- The two generated files of a workspace, none when never written. -/
structure GenFiles where
  schemaFile : Option String
  indexFile : Option String

/-- One run of generate schema over a workspace: both files are opened
in write mode, so any previous content is overwritten. -/
def runGenerate (tns url : String) (doc : WsdlDoc) (_fs : GenFiles) : GenFiles :=
  { schemaFile := some (schemaBodyOf tns url doc),
    indexFile := some indexBody }

/-! ## The deploy orchestrator

Embedding of the deploy method.  The filesystem is the workspace
directory tree in walk order, each directory holding a list of file
names, plus the file names present in the invoking process current
directory.  The external subprocess is abstracted by its exit code and
standard error text.  A raised RuntimeError is the error branch of the
result and carries the world as it stands when the exception leaves the
method. -/

structure DeployWorld where
  workspace : List (String × List String)
  cwdFiles : List String

/-- Removes the first occurrence of a name from a list of file names. -/
def removeFirstStr (f : String) : List String → List String
  | [] => []
  | x :: xs => if x == f then xs else x :: removeFirstStr f xs

/-- The os walk search of the deploy method: the first directory of the
workspace tree holding the wanted file name. -/
def walkFind (f : String) : List (String × List String) → Option String
  | [] => none
  | (d, fs) :: rest => if memStr f fs then some d else walkFind f rest

/-- Removes a file from a directory of the workspace tree. -/
def wsRemove (d f : String) (ws : List (String × List String)) :
    List (String × List String) :=
  ws.map (fun p => if p.1 == d then (p.1, removeFirstStr f p.2) else p)

/-- Moves a file back into a directory of the workspace tree. -/
def wsAdd (d f : String) (ws : List (String × List String)) :
    List (String × List String) :=
  ws.map (fun p => if p.1 == d then (p.1, p.2 ++ [f]) else p)

/-- The move-out loop of deploy: each generated file found under the
workspace is moved to the process current directory and its original
directory is recorded. -/
def moveOutFiles : List String → DeployWorld → List (String × String) →
    DeployWorld × List (String × String)
  | [], w, moved => (w, moved)
  | f :: rest, w, moved =>
    match walkFind f w.workspace with
    | some d =>
      moveOutFiles rest ⟨wsRemove d f w.workspace, w.cwdFiles ++ [f]⟩ (moved ++ [(f, d)])
    | none => moveOutFiles rest w moved

/-- The move-back loop of deploy. -/
def moveBack : List (String × String) → DeployWorld → DeployWorld
  | [], w => w
  | (f, d) :: rest, w =>
    moveBack rest ⟨wsAdd d f w.workspace, removeFirstStr f w.cwdFiles⟩

/-- The deploy method: move the generated files out, run the external
subcommand, and only on a zero exit code move them back; a non-zero exit
raises before the move-back loop runs. -/
def deploy (exitCode : Nat) (stderr : String) (w : DeployWorld) :
    Except (String × DeployWorld) DeployWorld :=
  let (w1, moved) := moveOutFiles ["index.graphql", "schema.graphql"] w []
  if exitCode != 0 then
    Except.error ("[ERROR] StepZen command failed:\n" ++ stderr, w1)
  else
    Except.ok (moveBack moved w1)

/-- The cons step of mapFields is the per-element computation followed by
the rest of the fields. -/
theorem mapFields_cons_step (name : String) (subType : XsdType)
    (rest : XsdElems) (reg : Registry) :
    mapFields (XsdElems.cons name subType rest) reg =
      (let (s, reg1) := elemFieldT subType name reg
       let (fields, reg2) := mapFields rest reg1
       ((name ++ ": " ++ s) :: fields, reg2)) := rfl

/-! ## Basic lemmas about the string helpers -/

theorem head_dropWhile_no (p : Char → Bool) :
    ∀ (l : List Char) (c : Char), (l.dropWhile p).head? = some c → p c = false := by
  intro l
  induction l with
  | nil => intro c h; simp [List.dropWhile] at h
  | cons a as ih =>
    intro c h
    by_cases hp : p a
    · simp only [List.dropWhile, hp] at h
      exact ih c h
    · simp only [List.dropWhile, hp] at h
      simp only [List.head?, Option.some.injEq] at h
      simpa [← h] using hp

theorem dropWhile_dropWhile_self (p : Char → Bool) (l : List Char) :
    (l.dropWhile p).dropWhile p = l.dropWhile p := by
  induction l with
  | nil => rfl
  | cons a as ih =>
    by_cases hp : p a
    · simp only [List.dropWhile, hp]
      exact ih
    · simp only [List.dropWhile, hp]

theorem endsBang_rstripBang (s : String) : endsBang (rstripBang s) = false := by
  unfold endsBang lastChr rstripBang
  simp only [List.reverse_reverse]
  cases h : (s.data.reverse.dropWhile (fun c => c == '!')).head? with
  | none => simp [h]
  | some c =>
    have hc := head_dropWhile_no _ _ _ h
    simp [h, hc]

theorem rstripBang_idem (s : String) : rstripBang (rstripBang s) = rstripBang s := by
  unfold rstripBang
  simp [List.reverse_reverse, dropWhile_dropWhile_self]

theorem digitChr_no_bang (n : Nat) : (digitChr n == '!') = false := by
  unfold digitChr
  split <;> decide

theorem natReprAux_rev_head (fuel n : Nat) :
    ∃ m, (natReprAux (fuel + 1) n).reverse.head? = some (digitChr m) := by
  unfold natReprAux
  by_cases hn : n < 10
  · exact ⟨n, by simp [hn]⟩
  · exact ⟨n % 10, by simp [hn, List.reverse_append]⟩

theorem endsBang_append_natRepr (h : String) (k : Nat) :
    endsBang (h ++ natRepr k) = false := by
  unfold endsBang lastChr
  have hdata : (h ++ natRepr k).data = h.data ++ natReprAux (k + 1) k := rfl
  rw [hdata, List.reverse_append]
  obtain ⟨m, hm⟩ := natReprAux_rev_head k k
  cases hrev : (natReprAux (k + 1) k).reverse with
  | nil => rw [hrev] at hm; simp at hm
  | cons a t =>
    rw [hrev] at hm
    simp only [List.head?, Option.some.injEq] at hm
    subst hm
    simp [digitChr_no_bang]

theorem chooseNameAux_form (hint : String) (keys : List String) :
    ∀ fuel counter, ∃ k, chooseNameAux hint keys fuel counter = hint ++ natRepr k := by
  intro fuel
  induction fuel with
  | zero => intro c; exact ⟨c, rfl⟩
  | succ f ih =>
    intro c
    unfold chooseNameAux
    by_cases hmem : memStr (hint ++ natRepr c) keys
    · simpa [hmem] using ih (c + 1)
    · exact ⟨c, by simp [hmem]⟩

theorem endsBang_chooseName (hint : String) (keys : List String)
    (h : endsBang hint = false) : endsBang (chooseName hint keys) = false := by
  unfold chooseName
  by_cases hm : memStr hint keys
  · obtain ⟨k, hk⟩ := chooseNameAux_form hint keys (keys.length + 1) 1
    simp only [hm, if_true]
    rw [hk]
    exact endsBang_append_natRepr hint k
  · simpa [hm] using h

theorem memStr_append (x : String) (a b : List String) :
    memStr x (a ++ b) = (memStr x a || memStr x b) := by
  induction a with
  | nil => simp [memStr]
  | cons y ys ih => simp [memStr, ih, Bool.or_assoc]

theorem keysOf_cons (p : String × String) (l : Registry) :
    keysOf (p :: l) = p.1 :: keysOf l := rfl

theorem memStr_cons (k x : String) (xs : List String) :
    memStr k (x :: xs) = (x == k || memStr k xs) := rfl

theorem memStr_keysOf_replace (reg : Registry) (k v : String) :
    memStr k (keysOf (reg.map (fun p => if p.1 == k then (k, v) else p)))
      = memStr k (keysOf reg) := by
  induction reg with
  | nil => rfl
  | cons p rest ih =>
    rw [List.map_cons, keysOf_cons, keysOf_cons, memStr_cons, memStr_cons, ih]
    by_cases hp : p.1 == k
    · rw [if_pos hp]
      simp [hp]
    · rw [if_neg hp]

theorem memStr_keysOf_regInsert (reg : Registry) (k v : String) :
    memStr k (keysOf (regInsert reg k v)) = true := by
  unfold regInsert
  by_cases hm : memStr k (keysOf reg)
  · rw [if_pos hm, memStr_keysOf_replace, hm]
  · rw [if_neg hm]
    have hkeys : keysOf (reg ++ [(k, v)]) = keysOf reg ++ [k] := by simp [keysOf]
    rw [hkeys, memStr_append]
    simp [memStr]

/-! ## Claim C4: the scalar mapping rules -/

/-- C4 counterexample: the lowercase name floatint satisfies the
substring condition of the Float clause, yet the mapper returns the Int
token, because the int clause is examined first.  The clause for Float
therefore does not hold for all names satisfying its substring
condition. -/
theorem C4_counterexample :
    strHasSub (strLower "floatint") "float" = true
      ∧ (mapXsd (XsdType.builtin "floatint" 1 (some 1)) "hint" []).1 ≠ "Float!"
      ∧ (mapXsd (XsdType.builtin "floatint" 1 (some 1)) "hint" []).1 = "Int!" := by
  refine ⟨by decide, by decide, by decide⟩

/-- C4 amended: for every builtin type, the mapper inspects the lowercase
name and returns the scalar chosen by the prioritised rule chain: the Int
token when the name contains int; otherwise the Float token when it
contains float, double or decimal; otherwise the Boolean token when it
contains bool; otherwise the String token.  The registry is untouched. -/
theorem C4_amended_scalar_rule (name : String) (m : Nat) (x : Option Nat)
    (hint : String) (reg : Registry) :
    mapXsd (XsdType.builtin name m x) hint reg = (specScalarRule name, reg) := by
  simp [mapXsd, specScalarRule]

/-! ## Claim C1: elements with minimum occurrence zero -/

/-- C1 counterexample: an element with minimum occurrence zero and
unbounded maximum occurrence gets the non-null list type, which ends in
the non-null marker at its outermost position. -/
theorem C1_counterexample :
    (XsdType.builtin "string" 0 none).minOcc = 0
      ∧ endsBang (elemFieldT (XsdType.builtin "string" 0 none) "x" []).1 = true
      ∧ (elemFieldT (XsdType.builtin "string" 0 none) "x" []).1 = "[String]!" := by
  refine ⟨rfl, by decide, by decide⟩

/-- C1 amended: for every element whose minimum occurrence is zero and
whose maximum occurrence is neither unbounded nor greater than one, the
produced type string does not end in a non-null marker at its outermost
position. -/
theorem C1_amended_min0_nullable (t : XsdType) (name : String) (reg : Registry)
    (hmin : t.minOcc = 0) (hmax : maxMany t.maxOcc = false) :
    endsBang (elemFieldT t name reg).1 = false := by
  rcases h : mapXsd t name reg with ⟨s0, reg1⟩
  by_cases hb : endsBang s0
  · simp [elemFieldT, h, hmin, hmax, hb, endsBang_rstripBang]
  · simp [elemFieldT, h, hmin, hmax, hb]

theorem C1_amended_witness :
    (XsdType.builtin "string" 0 (some 1)).minOcc = 0
      ∧ maxMany (XsdType.builtin "string" 0 (some 1)).maxOcc = false
      ∧ endsBang (elemFieldT (XsdType.builtin "string" 0 (some 1)) "x" []).1 = false :=
  ⟨rfl, by decide,
    C1_amended_min0_nullable (XsdType.builtin "string" 0 (some 1)) "x" [] rfl (by decide)⟩

/-! ## Claim C5: many-valued elements get a non-null list -/

/-- C5: for every element whose maximum occurrence is unbounded or
greater than one, the produced type is the non-null list wrapping the
mapped inner type with all trailing non-null markers stripped, and the
wrapped inner part does not end in a non-null marker. -/
theorem C5_list_wrap (t : XsdType) (name : String) (reg : Registry)
    (hmax : maxMany t.maxOcc = true) :
    (elemFieldT t name reg).1
        = "[" ++ rstripBang (mapXsd t name reg).1 ++ "]!"
      ∧ endsBang (rstripBang (mapXsd t name reg).1) = false := by
  rcases h : mapXsd t name reg with ⟨s0, reg1⟩
  refine ⟨?_, by simp [endsBang_rstripBang]⟩
  by_cases hb : t.minOcc == 0 && endsBang s0
  · simp [elemFieldT, h, hmax, hb, rstripBang_idem]
  · simp [elemFieldT, h, hmax, hb]

theorem C5_witness :
    maxMany (XsdType.builtin "string" 1 none).maxOcc = true
      ∧ ((elemFieldT (XsdType.builtin "string" 1 none) "x" []).1
            = "[" ++ rstripBang (mapXsd (XsdType.builtin "string" 1 none) "x" []).1 ++ "]!"
          ∧ endsBang (rstripBang (mapXsd (XsdType.builtin "string" 1 none) "x" []).1) = false) :=
  ⟨by decide, C5_list_wrap (XsdType.builtin "string" 1 none) "x" [] (by decide)⟩

/-! ## Claim C3: the mapper is total and yields a valid type token -/

/-- C3: for every XSD type node of any category and every registry, the
mapper returns a GraphQL type token that is one of the four scalar tokens
or a key registered in the resulting registry.  The embedding is a total
function mirroring the source, which contains no raise statement: no
error branch exists, so none is reachable. -/
theorem C3_total_valid_token (t : XsdType) (hint : String) (reg : Registry) :
    (mapXsd t hint reg).1 = "Int!" ∨ (mapXsd t hint reg).1 = "Float!"
      ∨ (mapXsd t hint reg).1 = "Boolean!" ∨ (mapXsd t hint reg).1 = "String!"
      ∨ memStr (mapXsd t hint reg).1 (keysOf (mapXsd t hint reg).2) = true := by
  cases t with
  | builtin name m x =>
    simp only [mapXsd]
    by_cases h1 : strHasSub (strLower name) "int"
    · simp [h1]
    · by_cases h2 : strHasSub (strLower name) "float" || strHasSub (strLower name) "double"
          || strHasSub (strLower name) "decimal"
      · simp [h1, h2]
      · by_cases h3 : strHasSub (strLower name) "bool" <;> simp [h1, h2, h3]
  | complex elems m x =>
    rcases hm : mapFields elems reg with ⟨fields, reg1⟩
    have : mapXsd (XsdType.complex elems m x) hint reg
        = (chooseName hint (keysOf reg),
           regInsert reg1 (chooseName hint (keysOf reg))
             ("type " ++ chooseName hint (keysOf reg) ++ " \x7b\n  "
               ++ String.intercalate "\n  " fields ++ "\n\x7d")) := by
      simp [mapXsd, hm]
    rw [this]
    exact Or.inr (Or.inr (Or.inr (Or.inr (memStr_keysOf_regInsert _ _ _))))
  | other m x =>
    simp [mapXsd]

/-! ## Lemmas about the complex branch of the mapper -/

theorem mapXsd_complex_eq (elems : XsdElems) (m : Nat) (x : Option Nat)
    (hint : String) (reg : Registry) :
    mapXsd (XsdType.complex elems m x) hint reg
      = (chooseName hint (keysOf reg),
         regInsert (mapFields elems reg).2 (chooseName hint (keysOf reg))
           ("type " ++ chooseName hint (keysOf reg) ++ " \x7b\n  "
             ++ String.intercalate "\n  " (mapFields elems reg).1 ++ "\n\x7d")) := by
  rcases hm : mapFields elems reg with ⟨fields, reg1⟩
  simp [mapXsd, hm]

theorem mapXsd_reg_non_cplx (t : XsdType) (name : String) (reg : Registry)
    (h : t.isCplx = false) : (mapXsd t name reg).2 = reg := by
  cases t with
  | builtin n m x => simp [mapXsd]
  | complex e m x => simp [XsdType.isCplx] at h
  | other m x => simp [mapXsd]

theorem mapFields_reg_noCplx : ∀ (es : XsdElems) (reg : Registry),
    noCplxElems es = true → (mapFields es reg).2 = reg
  | XsdElems.nil, _, _ => rfl
  | XsdElems.cons name t rest, reg, h => by
    have hsplit : (!t.isCplx && noCplxElems rest) = true := h
    have ht : t.isCplx = false := by
      cases hc : t.isCplx
      · rfl
      · rw [hc] at hsplit; simp at hsplit
    have hrest : noCplxElems rest = true := by
      cases hr : noCplxElems rest
      · rw [hr] at hsplit; simp at hsplit
      · rfl
    rcases hm : mapXsd t name reg with ⟨s0, reg1⟩
    have hr1 : reg1 = reg := by
      have hx := mapXsd_reg_non_cplx t name reg ht
      rw [hm] at hx; exact hx
    rcases hm2 : mapFields rest reg1 with ⟨fs, reg2⟩
    have hr2 : reg2 = reg := by
      have hx := mapFields_reg_noCplx rest reg1 hrest
      rw [hm2] at hx
      exact hx.trans hr1
    simp [mapFields, hm, hm2, hr2]

theorem str_append_data (a b : String) : (a ++ b).data = a.data ++ b.data := rfl

theorem ne_self_append_one (s : String) : s ≠ s ++ "1" := by
  intro h
  have hlen := congrArg (fun t => t.data.length) h
  simp only [str_append_data] at hlen
  simp at hlen

theorem beq_append_one_self (s : String) : ((s ++ "1") == s) = false :=
  beq_eq_false_iff_ne.mpr (fun h => ne_self_append_one s h.symm)

theorem beq_self_append_one (s : String) : (s == s ++ "1") = false :=
  beq_eq_false_iff_ne.mpr (ne_self_append_one s)

theorem keysOf_append (a b : Registry) : keysOf (a ++ b) = keysOf a ++ keysOf b := by
  simp [keysOf]

theorem lookupReg_append_ne (l : Registry) (k v key : String)
    (hk : (k == key) = false) :
    lookupReg (l ++ [(k, v)]) key = lookupReg l key := by
  induction l with
  | nil => simp [lookupReg, hk]
  | cons p rest ih =>
    cases p with
    | mk a b =>
      simp only [List.cons_append, lookupReg, List.append_eq]
      rw [ih]

theorem chooseName_fresh (h : String) (keys : List String)
    (hf : memStr h keys = false) : chooseName h keys = h := by
  unfold chooseName
  rw [hf]
  simp

theorem chooseName_second (h : String) (keys : List String)
    (hmem : memStr h keys = true) (h1f : memStr (h ++ "1") keys = false) :
    chooseName h keys = h ++ "1" := by
  have hone : natRepr 1 = "1" := by decide
  unfold chooseName
  rw [hmem]
  simp only [chooseNameAux, hone, h1f]
  simp

theorem mapXsd_complex_flat_fresh (e : XsdElems) (m : Nat) (x : Option Nat)
    (h : String) (reg : Registry) (hc : noCplxElems e = true)
    (hf : memStr h (keysOf reg) = false) :
    mapXsd (XsdType.complex e m x) h reg
      = (h, reg ++ [(h, "type " ++ h ++ " \x7b\n  "
          ++ String.intercalate "\n  " (mapFields e reg).1 ++ "\n\x7d")]) := by
  rw [mapXsd_complex_eq, chooseName_fresh h (keysOf reg) hf,
    mapFields_reg_noCplx e reg hc]
  unfold regInsert
  rw [hf]
  simp

theorem mapXsd_complex_flat_second (e : XsdElems) (m : Nat) (x : Option Nat)
    (h : String) (reg : Registry) (hc : noCplxElems e = true)
    (hmem : memStr h (keysOf reg) = true)
    (h1f : memStr (h ++ "1") (keysOf reg) = false) :
    mapXsd (XsdType.complex e m x) h reg
      = (h ++ "1", reg ++ [(h ++ "1", "type " ++ (h ++ "1") ++ " \x7b\n  "
          ++ String.intercalate "\n  " (mapFields e reg).1 ++ "\n\x7d")]) := by
  rw [mapXsd_complex_eq, chooseName_second h (keysOf reg) hmem h1f,
    mapFields_reg_noCplx e reg hc]
  unfold regInsert
  rw [h1f]
  simp

/-! ## Claim C6: registry key uniqueness -/

/-- C6 counterexample: a complex type whose single child element carries
the same name as the type hint and is itself complex.  The child is
registered under the key A first; the parent, which reserved the key A
before recursing into its children, then overwrites that entry.  Two
registrations took place, yet the final registry holds a single entry
with the parent declaration, the child declaration having been
overwritten. -/
theorem C6_counterexample :
    (mapXsd (XsdType.complex (XsdElems.cons "x" (XsdType.builtin "string" 1 (some 1)) XsdElems.nil) 1 (some 1)) "A" []).2
        = [("A", "type A \x7b\n  x: String!\n\x7d")]
      ∧ (mapXsd (XsdType.complex (XsdElems.cons "A" (XsdType.complex (XsdElems.cons "x" (XsdType.builtin "string" 1 (some 1)) XsdElems.nil) 1 (some 1)) XsdElems.nil) 1 (some 1)) "A" []).2
        = [("A", "type A \x7b\n  A: A\n\x7d")]
      ∧ ("type A \x7b\n  A: A\n\x7d" : String) ≠ "type A \x7b\n  x: String!\n\x7d" := by
  refine ⟨by decide, by decide, by decide⟩

/-- C6 amended: the registry key of a registration is chosen fresh with
respect to the registry as it stands when the registration begins, and
two sequential registrations of complex types without complex children
under the same hint yield the distinct keys hint and hint followed by 1,
both present afterwards with the earlier entry untouched.  A nested
child registration performed between the choice of the parent key and
the parent insertion can however still be overwritten, as the
counterexample shows. -/
theorem C6_amended_sequential (h : String) (e1 e2 : XsdElems) (reg : Registry)
    (hc1 : noCplxElems e1 = true) (hc2 : noCplxElems e2 = true)
    (hf : memStr h (keysOf reg) = false)
    (hf1 : memStr (h ++ "1") (keysOf reg) = false) :
    (mapXsd (XsdType.complex e1 1 (some 1)) h reg).1 = h
      ∧ (mapXsd (XsdType.complex e2 1 (some 1)) h
          (mapXsd (XsdType.complex e1 1 (some 1)) h reg).2).1 = h ++ "1"
      ∧ h ≠ h ++ "1"
      ∧ keysOf (mapXsd (XsdType.complex e2 1 (some 1)) h
          (mapXsd (XsdType.complex e1 1 (some 1)) h reg).2).2
          = keysOf reg ++ [h, h ++ "1"]
      ∧ lookupReg (mapXsd (XsdType.complex e2 1 (some 1)) h
          (mapXsd (XsdType.complex e1 1 (some 1)) h reg).2).2 h
          = lookupReg (mapXsd (XsdType.complex e1 1 (some 1)) h reg).2 h := by
  have hstep1 := mapXsd_complex_flat_fresh e1 1 (some 1) h reg hc1 hf
  set d1 := "type " ++ h ++ " \x7b\n  "
    ++ String.intercalate "\n  " (mapFields e1 reg).1 ++ "\n\x7d" with hd1
  have hkeys1 : keysOf (reg ++ [(h, d1)]) = keysOf reg ++ [h] := by
    rw [keysOf_append]; rfl
  have hmem2 : memStr h (keysOf (reg ++ [(h, d1)])) = true := by
    rw [hkeys1, memStr_append, hf]
    simp [memStr]
  have h1f2 : memStr (h ++ "1") (keysOf (reg ++ [(h, d1)])) = false := by
    rw [hkeys1, memStr_append, hf1]
    simp [memStr, beq_self_append_one]
  have hstep2 := mapXsd_complex_flat_second e2 1 (some 1) h (reg ++ [(h, d1)])
    hc2 hmem2 h1f2
  refine ⟨by rw [hstep1], ?_, ne_self_append_one h, ?_, ?_⟩
  · rw [hstep1, hstep2]
  · rw [hstep1, hstep2, keysOf_append, keysOf_append]
    simp [keysOf]
  · rw [hstep1, hstep2]
    exact lookupReg_append_ne _ _ _ _ (beq_append_one_self h)

theorem C6_amended_witness :
    noCplxElems XsdElems.nil = true
      ∧ memStr "T" (keysOf ([] : Registry)) = false
      ∧ memStr ("T" ++ "1") (keysOf ([] : Registry)) = false
      ∧ ((mapXsd (XsdType.complex XsdElems.nil 1 (some 1)) "T" []).1 = "T"
         ∧ (mapXsd (XsdType.complex XsdElems.nil 1 (some 1)) "T"
             (mapXsd (XsdType.complex XsdElems.nil 1 (some 1)) "T" []).2).1 = "T" ++ "1"
         ∧ "T" ≠ "T" ++ "1"
         ∧ keysOf (mapXsd (XsdType.complex XsdElems.nil 1 (some 1)) "T"
             (mapXsd (XsdType.complex XsdElems.nil 1 (some 1)) "T" []).2).2
             = keysOf ([] : Registry) ++ ["T", "T" ++ "1"]
         ∧ lookupReg (mapXsd (XsdType.complex XsdElems.nil 1 (some 1)) "T"
             (mapXsd (XsdType.complex XsdElems.nil 1 (some 1)) "T" []).2).2 "T"
             = lookupReg (mapXsd (XsdType.complex XsdElems.nil 1 (some 1)) "T" []).2 "T") :=
  ⟨by decide, by decide, by decide,
    C6_amended_sequential "T" XsdElems.nil XsdElems.nil []
      (by decide) (by decide) (by decide) (by decide)⟩

/-! ## Claim C10: complex types map to a bare nullable name -/

/-- C10: for every complex type and every hint not already ending in a
non-null marker, the mapper returns the bare registered type name, which
is a key of the resulting registry and carries no trailing non-null
marker; consequently an element of complex type whose maximum occurrence
is at most one is emitted without a non-null marker regardless of its
minimum occurrence. -/
theorem C10_complex_bare_name (elems : XsdElems) (m : Nat) (x : Option Nat)
    (hint : String) (reg : Registry) (hh : endsBang hint = false) :
    endsBang (mapXsd (XsdType.complex elems m x) hint reg).1 = false
      ∧ memStr (mapXsd (XsdType.complex elems m x) hint reg).1
          (keysOf (mapXsd (XsdType.complex elems m x) hint reg).2) = true
      ∧ (maxMany x = false →
          endsBang (elemFieldT (XsdType.complex elems m x) hint reg).1 = false) := by
  have heq := mapXsd_complex_eq elems m x hint reg
  have h1 : endsBang (mapXsd (XsdType.complex elems m x) hint reg).1 = false := by
    rw [heq]
    exact endsBang_chooseName hint (keysOf reg) hh
  refine ⟨h1, ?_, ?_⟩
  · rw [heq]
    exact memStr_keysOf_regInsert _ _ _
  · intro hmax
    rcases hm : mapXsd (XsdType.complex elems m x) hint reg with ⟨s0, reg1⟩
    have hs0 : endsBang s0 = false := by rw [hm] at h1; exact h1
    simp [elemFieldT, hm, hs0, XsdType.minOcc, XsdType.maxOcc, hmax]

theorem C10_witness :
    endsBang "Foo" = false
      ∧ (endsBang (mapXsd (XsdType.complex XsdElems.nil 1 (some 1)) "Foo" []).1 = false
         ∧ memStr (mapXsd (XsdType.complex XsdElems.nil 1 (some 1)) "Foo" []).1
             (keysOf (mapXsd (XsdType.complex XsdElems.nil 1 (some 1)) "Foo" []).2) = true
         ∧ (maxMany (some 1) = false →
             endsBang (elemFieldT (XsdType.complex XsdElems.nil 1 (some 1)) "Foo" []).1 = false)) :=
  ⟨by decide, C10_complex_bare_name XsdElems.nil 1 (some 1) "Foo" [] (by decide)⟩

/-! ## Claim C7: the SOAP envelope templater -/

/-- C7: for operation GetInfo, target namespace http, one argument code
and SOAP version soap12, the templater produces exactly the envelope
whose root element is the soap12 Envelope declaring the 2003 SOAP
envelope namespace, holding the namespace-qualified GetInfo operation
element and a code child with the named-parameter placeholder; and for
every operation and namespace, the operation opening tag carries the
xmlns attribute exactly when the target namespace is non-empty. -/
theorem C7_envelope :
    buildPostbody "GetInfo" "http://example.com/ns" ["code"] "soap12"
        = "<?xml version=\"1.0\" encoding=\"utf-8\"?>\n<soap12:Envelope xmlns:soap12=\"http://www.w3.org/2003/05/soap-envelope\">\n  <soap12:Body>\n    <GetInfo xmlns=\"http://example.com/ns\">\n  <code>\x7b\x7b .Get \"code\" \x7d\x7d</code>\n    </GetInfo>\n  </soap12:Body>\n</soap12:Envelope>"
      ∧ ∀ (action soapNs : String),
          (soapNs ≠ "" →
            opOpenOf action soapNs = "<" ++ action ++ " xmlns=\"" ++ soapNs ++ "\">")
          ∧ (soapNs = "" → opOpenOf action soapNs = "<" ++ action ++ ">") := by
  refine ⟨by decide, ?_⟩
  intro action soapNs
  constructor
  · intro hns
    unfold opOpenOf
    rw [if_pos]
    simpa using hns
  · intro hns
    subst hns
    rfl

theorem C7_witness :
    ("http://example.com/ns" : String) ≠ ""
      ∧ opOpenOf "GetInfo" "http://example.com/ns"
          = "<" ++ "GetInfo" ++ " xmlns=\"" ++ "http://example.com/ns" ++ "\">"
      ∧ opOpenOf "GetInfo" "" = "<" ++ "GetInfo" ++ ">" :=
  ⟨by decide,
    (C7_envelope.2 "GetInfo" "http://example.com/ns").1 (by decide),
    (C7_envelope.2 "GetInfo" "").2 rfl⟩

/-! ## Lemmas about the schema walk -/

theorem emitCtx_seen (tns : String) (st : GenSt) (c : OpCtx) :
    (emitCtx tns st c).seen = c.name :: st.seen := by
  rcases hinp : c.input with _ | elems <;> simp [emitCtx, hinp]

theorem emitCtx_pairs_names (tns : String) (st : GenSt) (c : OpCtx) :
    (emitCtx tns st c).pairs.map Prod.fst = st.pairs.map Prod.fst ++ [c.name] := by
  rcases hinp : c.input with _ | elems <;> simp [emitCtx, hinp]

theorem foldl_congr_fn {α β : Type} (f g : α → β → α) (l : List β)
    (h : ∀ acc x, f acc x = g acc x) : ∀ a, l.foldl f a = l.foldl g a := by
  induction l with
  | nil => intro a; rfl
  | cons x xs ih =>
    intro a
    rw [List.foldl_cons, List.foldl_cons, h]
    exact ih _

theorem procDoc_eq_foldl_enum (tns url : String) (doc : WsdlDoc) (st : GenSt) :
    procDoc tns url doc st = (enumOps url doc).foldl (procCtx tns) st := by
  unfold procDoc enumOps
  rw [List.foldl_flatten, List.foldl_map]
  refine foldl_congr_fn _ _ _ (fun st1 svc => ?_) st
  rw [List.foldl_flatten, List.foldl_map]
  refine foldl_congr_fn _ _ _ (fun st2 port => ?_) st1
  unfold procPort
  rw [List.foldl_map]
  rfl

theorem foldl_procCtx_dedup (tns : String) :
    ∀ (l : List OpCtx) (st : GenSt),
      l.foldl (procCtx tns) st = (dedupSeen st.seen l).foldl (emitCtx tns) st := by
  intro l
  induction l with
  | nil => intro st; rfl
  | cons c rest ih =>
    intro st
    by_cases hm : memStr c.name st.seen
    · simp only [List.foldl_cons, dedupSeen, hm, if_true, procCtx]
      exact ih st
    · simp only [List.foldl_cons, dedupSeen, hm, if_false, procCtx,
        Bool.false_eq_true]
      have := ih (emitCtx tns st c)
      rwa [emitCtx_seen] at this

theorem foldl_emitCtx_names (tns : String) :
    ∀ (l : List OpCtx) (st : GenSt),
      (l.foldl (emitCtx tns) st).pairs.map Prod.fst
        = st.pairs.map Prod.fst ++ l.map OpCtx.name := by
  intro l
  induction l with
  | nil => intro st; simp
  | cons c rest ih =>
    intro st
    simp only [List.foldl_cons, List.map_cons]
    rw [ih, emitCtx_pairs_names]
    simp

theorem countStr_dedupSeen (n : String) :
    ∀ (l : List OpCtx) (seen : List String),
      countStr n ((dedupSeen seen l).map OpCtx.name)
        = if (memStr n (l.map OpCtx.name) && !memStr n seen) = true then 1 else 0 := by
  intro l
  induction l with
  | nil => intro seen; simp [dedupSeen, countStr, memStr]
  | cons c rest ih =>
    intro seen
    by_cases hm : memStr c.name seen
    · rw [List.map_cons]
      simp only [dedupSeen, hm, if_true]
      rw [ih seen]
      by_cases hcn : (c.name == n)
      · have hn : memStr n seen = true := by
          have : c.name = n := by simpa using hcn
          rw [← this]; exact hm
        simp [memStr_cons, hcn, hn]
      · simp [memStr_cons, hcn]
    · rw [List.map_cons]
      simp only [dedupSeen, hm, if_false, Bool.false_eq_true, List.map_cons]
      rw [countStr, ih (c.name :: seen)]
      by_cases hcn : (c.name == n)
      · have hnn : memStr n (c.name :: seen) = true := by
          simp [memStr_cons, hcn]
        have hns : memStr n seen = false := by
          have hcne : c.name = n := by simpa using hcn
          rw [← hcne]; exact (Bool.not_eq_true _).mp hm
        simp [memStr_cons, hcn, hnn, hns]
      · have hnn : memStr n (c.name :: seen) = memStr n seen := by
          simp [memStr_cons, hcn]
        simp [memStr_cons, hcn, hnn]

theorem find?_dedupSeen (n : String) :
    ∀ (l : List OpCtx) (seen : List String),
      List.find? (fun c => c.name == n) (dedupSeen seen l)
        = if memStr n seen = true then none
          else List.find? (fun c => c.name == n) l := by
  intro l
  induction l with
  | nil => intro seen; simp [dedupSeen]
  | cons c rest ih =>
    intro seen
    by_cases hm : memStr c.name seen
    · simp only [dedupSeen, hm, if_true]
      rw [ih seen]
      by_cases hcn : (c.name == n)
      · have hn : memStr n seen = true := by
          have : c.name = n := by simpa using hcn
          rw [← this]; exact hm
        simp [hn, List.find?_cons, hcn]
      · simp [List.find?_cons, hcn]
    · simp only [dedupSeen, hm, if_false, Bool.false_eq_true]
      by_cases hcn : (c.name == n)
      · have hns : memStr n seen = false := by
          have hcne : c.name = n := by simpa using hcn
          rw [← hcne]; exact (Bool.not_eq_true _).mp hm
        simp [List.find?_cons, hcn, hns]
      · have hstep : memStr n (c.name :: seen) = memStr n seen := by
          simp [memStr_cons, hcn]
        simp only [List.find?_cons, hcn]
        rw [ih (c.name :: seen), hstep]

/-! ## Claim C8: deduplication of operations by name -/

/-- C8: the nested walk over services, ports and operations with a seen
set equals the plain emission walk over the name-deduplicated flattened
enumeration; the emitted field names are exactly the deduplicated names;
every name present anywhere in the enumeration is emitted exactly once;
and the operation context retained for a name, endpoint included, is the
first one in service, port, operation enumeration order. -/
theorem C8_dedup_first_wins (tns url : String) (doc : WsdlDoc) (n : String) :
    procDoc tns url doc ⟨[], [], []⟩
        = (dedupSeen [] (enumOps url doc)).foldl (emitCtx tns) ⟨[], [], []⟩
      ∧ (procDoc tns url doc ⟨[], [], []⟩).pairs.map Prod.fst
          = (dedupSeen [] (enumOps url doc)).map OpCtx.name
      ∧ countStr n ((procDoc tns url doc ⟨[], [], []⟩).pairs.map Prod.fst)
          = (if memStr n ((enumOps url doc).map OpCtx.name) = true then 1 else 0)
      ∧ List.find? (fun c => c.name == n) (dedupSeen [] (enumOps url doc))
          = List.find? (fun c => c.name == n) (enumOps url doc) := by
  have h1 : procDoc tns url doc ⟨[], [], []⟩
      = (dedupSeen [] (enumOps url doc)).foldl (emitCtx tns) ⟨[], [], []⟩ := by
    rw [procDoc_eq_foldl_enum]
    exact foldl_procCtx_dedup tns (enumOps url doc) ⟨[], [], []⟩
  have h2 : (procDoc tns url doc ⟨[], [], []⟩).pairs.map Prod.fst
      = (dedupSeen [] (enumOps url doc)).map OpCtx.name := by
    rw [h1, foldl_emitCtx_names]
    simp
  refine ⟨h1, h2, ?_, ?_⟩
  · rw [h2, countStr_dedupSeen]
    simp [memStr]
  · rw [find?_dedupSeen]
    simp [memStr]

/-! ## Claim C9: regeneration is deterministic and idempotent -/

/-- C9: the generation pass is a pure function of the parsed document,
the namespace and the URL; each run starts from an empty registry and an
empty seen set, and writing opens both files in write mode.  Running the
generation twice therefore leaves exactly the file state of one run, and
the produced contents do not depend on what the files held before. -/
theorem C9_idempotent_regeneration (tns url : String) (doc : WsdlDoc)
    (fs fs2 : GenFiles) :
    runGenerate tns url doc (runGenerate tns url doc fs) = runGenerate tns url doc fs
      ∧ runGenerate tns url doc fs = runGenerate tns url doc fs2 :=
  ⟨rfl, rfl⟩

/-! ## Claim C2: restoration of moved files around deploy -/

/-- C2: evaluation of the deploy method at a workspace holding both
generated files.  On exit code zero the files are moved back and the
world is restored exactly.  On a non-zero exit code the RuntimeError is
raised before the move-back loop, so the error world still holds both
files in the process current directory and the workspace directory is
left empty: the files are not moved back, contradicting the claim. -/
theorem C2_restore_gap :
    deploy 1 "boom" ⟨[("ws", ["index.graphql", "schema.graphql"])], []⟩
        = Except.error ("[ERROR] StepZen command failed:\nboom",
            ⟨[("ws", [])], ["index.graphql", "schema.graphql"]⟩)
      ∧ deploy 0 "" ⟨[("ws", ["index.graphql", "schema.graphql"])], []⟩
        = Except.ok ⟨[("ws", ["index.graphql", "schema.graphql"])], []⟩ :=
  ⟨rfl, rfl⟩

end StepZen
